import Mathlib

/-!
Verification of the request-routing core of the htsget-rs server: the
Resolver Matching Engine (ordered regex-based identifier-to-storage
dispatch) and the Response Translation Layer (mapping an internal outcome
to an HTTP status code and a pretty-printed JSON body), together with the
header context adapter and the test-support `Response` type.

The Rust sources embedded here are `htsget-actix/src/handlers/mod.rs`
(`handle_response`, the `From<&HttpRequest> for HeaderMap` adapter) and
`htsget-test/src/http_tests.rs` (`Response`, `default_test_resolver`).
The resolver engine itself (`htsget_config::resolver::Resolver`) and the
error-to-status mapping (`htsget_http`) are declared and called by these
files but their code is not part of the embedded sources; those parts are
modelled from the specification, and each such definition says so in its
doc comment.

JSON values are modelled by an explicit syntax tree (`Json`), with numbers
as integers; serialization is a concrete pretty-printer in the style of
`serde_json::to_string_pretty` (two-space indentation, newline-separated
items) and deserialization is a concrete recursive-descent parser, so that
the round-trip property is provable rather than assumed.
-/

namespace Htsget

instance {ε α : Type} [DecidableEq ε] [DecidableEq α] : DecidableEq (Except ε α) :=
  fun x y =>
    match x, y with
    | .ok a, .ok b => decidable_of_iff (a = b) (by simp)
    | .error a, .error b => decidable_of_iff (a = b) (by simp)
    | .ok _, .error _ => isFalse (by simp)
    | .error _, .ok _ => isFalse (by simp)

/-- Whitespace characters skipped by the JSON parser. -/
def isWs (c : Char) : Bool :=
  c = ' ' || c = '\n' || c = '\t' || c = '\r'

/-- Drop leading whitespace. -/
def skipWs : List Char → List Char
  | [] => []
  | c :: cs => if isWs c then skipWs cs else c :: cs

/-- `n` spaces of indentation. -/
def indentC (n : Nat) : List Char := List.replicate n ' '

/-- The decimal digit character for `n < 10`. -/
def digitChar (n : Nat) : Char := Char.ofNat (48 + n)

/-- Decimal representation of a natural number, most significant digit
first. -/
def natChars (n : Nat) : List Char :=
  if n < 10 then [ digitChar n ]
  else natChars (n / 10) ++ [ digitChar (n % 10) ]
termination_by n
decreasing_by exact Nat.div_lt_self (by omega) (by omega)

/-- Decimal representation of an integer. -/
def intChars (n : Int) : List Char :=
  if n < 0 then '-' :: natChars (-n).toNat else natChars n.toNat

/-- Lower-case hexadecimal digit character for `n < 16`. -/
def hexDigitChar (n : Nat) : Char :=
  if n < 10 then Char.ofNat (48 + n) else Char.ofNat (87 + n)

/-- JSON string escaping of one character: `"` and `\` get a backslash
escape, other control characters use the `\u00XX` form, and every other
character stands for itself. -/
def escapeChar (c : Char) : List Char :=
  if c = '"' then [ '\\', '"' ]
  else if c = '\\' then [ '\\', '\\' ]
  else if c.toNat < 32 then
    [ '\\', 'u', '0', '0', hexDigitChar (c.toNat / 16), hexDigitChar (c.toNat % 16) ]
  else [ c ]

/-- JSON string escaping of a character list. -/
def escapeList : List Char → List Char
  | [] => []
  | c :: cs => escapeChar c ++ escapeList cs

/-- A JSON object key as printed: quoted, escaped, followed by a colon and
a space. -/
def keyChars (k : String) : List Char :=
  '"' :: (escapeList k.data ++ [ '"', ':', ' ' ])

/-- JSON values: the payloads and error bodies rendered by the Response
Translation Layer.  Numbers are modelled as integers. -/
inductive Json where
  | null : Json
  | jbool (b : Bool) : Json
  | num (n : Int) : Json
  | str (s : String) : Json
  | arr (elems : List Json) : Json
  | obj (fields : List (String × Json)) : Json
deriving Repr

mutual

/-- Pretty-printer for JSON values in the style of
`serde_json::to_string_pretty`: two-space indentation, each array element
and object field on its own line.  `ind` is the current indentation. -/
def printJson (ind : Nat) : Json → List Char
  | .null => [ 'n', 'u', 'l', 'l' ]
  | .jbool true => [ 't', 'r', 'u', 'e' ]
  | .jbool false => [ 'f', 'a', 'l', 's', 'e' ]
  | .num n => intChars n
  | .str s => '"' :: (escapeList s.data ++ [ '"' ])
  | .arr [] => [ '[', ']' ]
  | .arr (x :: xs) =>
      '[' :: '\n' :: (printElems (ind + 2) x xs ++ '\n' :: (indentC ind ++ [ ']' ]))
  | .obj [] => [ '\x7b', '\x7d' ]
  | .obj (f :: fs) =>
      '\x7b' :: '\n' :: (printFields (ind + 2) f fs ++ '\n' :: (indentC ind ++ [ '\x7d' ]))
termination_by v => sizeOf v
decreasing_by all_goals (simp_wf; try omega)

/-- Pretty-printer for a nonempty list of array elements, comma-and-newline
separated, each line indented by `ind`. -/
def printElems : Nat → Json → List Json → List Char
  | ind, x, [] => indentC ind ++ printJson ind x
  | ind, x, y :: ys =>
      indentC ind ++ printJson ind x ++ (',' :: '\n' :: printElems ind y ys)
termination_by _ x xs => sizeOf x + sizeOf xs
decreasing_by all_goals (simp_wf; try omega)

/-- Pretty-printer for a nonempty list of object fields. -/
def printFields : Nat → String × Json → List (String × Json) → List Char
  | ind, (k, v), [] => indentC ind ++ keyChars k ++ printJson ind v
  | ind, (k, v), g :: gs =>
      indentC ind ++ keyChars k ++ printJson ind v ++ (',' :: '\n' :: printFields ind g gs)
termination_by _ f fs => sizeOf f + sizeOf fs
decreasing_by all_goals (simp_wf; try omega)

end

/-- Serialize a JSON value as pretty-printed JSON text (the body format of
every response, success or failure). -/
def prettyString (v : Json) : String := String.mk (printJson 0 v)

/-- The value of a hexadecimal digit character, if it is one. -/
def parseHex (c : Char) : Option Nat :=
  if 48 ≤ c.toNat ∧ c.toNat ≤ 57 then some (c.toNat - 48)
  else if 97 ≤ c.toNat ∧ c.toNat ≤ 102 then some (c.toNat - 87)
  else if 65 ≤ c.toNat ∧ c.toNat ≤ 70 then some (c.toNat - 55)
  else none

/-- Parse the body of a JSON string after the opening quote, undoing the
escapes of `escapeChar`; returns the decoded characters and the input
after the closing quote. -/
def parseStringBody : List Char → Option (List Char × List Char)
  | [] => none
  | c :: cs =>
    if c = '"' then some ([], cs)
    else if c = '\\' then
      match cs with
      | [] => none
      | e :: cs2 =>
        if e = '"' then (parseStringBody cs2).map (fun p => ('"' :: p.1, p.2))
        else if e = '\\' then (parseStringBody cs2).map (fun p => ('\\' :: p.1, p.2))
        else if e = 'u' then
          match cs2 with
          | h1 :: h2 :: h3 :: h4 :: cs3 =>
            match parseHex h1, parseHex h2, parseHex h3, parseHex h4 with
            | some a, some b, some x, some y =>
              (parseStringBody cs3).map
                (fun p => (Char.ofNat (((a * 16 + b) * 16 + x) * 16 + y) :: p.1, p.2))
            | _, _, _, _ => none
          | _ => none
        else none
    else (parseStringBody cs).map (fun p => (c :: p.1, p.2))

/-- Consume a run of decimal digits, accumulating their value onto `acc`. -/
def parseNatLoop (acc : Nat) : List Char → Nat × List Char
  | [] => (acc, [])
  | c :: cs =>
    if c.isDigit then parseNatLoop (acc * 10 + (c.toNat - 48)) cs
    else (acc, c :: cs)

/-- Parse a JSON number token (an optional minus sign followed by decimal
digits). -/
def parseNumToken : List Char → Option (Json × List Char)
  | [] => none
  | c :: cs =>
    if c = '-' then
      match cs with
      | [] => none
      | d :: ds =>
        if d.isDigit then
          let p := parseNatLoop 0 (d :: ds)
          some (.num (-(p.1 : Int)), p.2)
        else none
    else if c.isDigit then
      let p := parseNatLoop 0 (c :: cs)
      some (.num (p.1 : Int), p.2)
    else none

/-- Expect the literal characters `pat` at the head of the input. -/
def expectChars : List Char → List Char → Option (List Char)
  | [], s => some s
  | p :: ps, c :: cs => if c = p then expectChars ps cs else none
  | _ :: _, [] => none

mutual

/-- Recursive-descent JSON parser (the model of `serde_json` reading a
response body).  `fuel` bounds the nesting; `parseJson` supplies enough
fuel for any input.  Returns the parsed value and the unconsumed input. -/
def parseValue : Nat → List Char → Option (Json × List Char)
  | 0, _ => none
  | fuel + 1, s =>
    match skipWs s with
    | [] => none
    | c :: cs =>
      if c = 'n' then (expectChars [ 'u', 'l', 'l' ] cs).map (fun r => (.null, r))
      else if c = 't' then (expectChars [ 'r', 'u', 'e' ] cs).map (fun r => (.jbool true, r))
      else if c = 'f' then (expectChars [ 'a', 'l', 's', 'e' ] cs).map (fun r => (.jbool false, r))
      else if c = '"' then (parseStringBody cs).map (fun p => (.str (String.mk p.1), p.2))
      else if c = '[' then
        match skipWs cs with
        | [] => none
        | d :: r2 =>
          if d = ']' then some (.arr [], r2)
          else (parseElems fuel (d :: r2)).map (fun p => (.arr p.1, p.2))
      else if c = '\x7b' then
        match skipWs cs with
        | [] => none
        | d :: r2 =>
          if d = '\x7d' then some (.obj [], r2)
          else (parseFields fuel (d :: r2)).map (fun p => (.obj p.1, p.2))
      else parseNumToken (c :: cs)

/-- Parse one or more comma-separated array elements up to and including
the closing bracket. -/
def parseElems : Nat → List Char → Option (List Json × List Char)
  | 0, _ => none
  | fuel + 1, s =>
    match parseValue fuel s with
    | none => none
    | some (v, r) =>
      match skipWs r with
      | [] => none
      | e :: r2 =>
        if e = ',' then (parseElems fuel r2).map (fun p => (v :: p.1, p.2))
        else if e = ']' then some ([ v ], r2)
        else none

/-- Parse one or more comma-separated object fields up to and including
the closing brace. -/
def parseFields : Nat → List Char → Option (List (String × Json) × List Char)
  | 0, _ => none
  | fuel + 1, s =>
    match skipWs s with
    | [] => none
    | c :: cs =>
      if c = '"' then
        match parseStringBody cs with
        | none => none
        | some (k, r1) =>
          match skipWs r1 with
          | [] => none
          | d :: r2 =>
            if d = ':' then
              match parseValue fuel r2 with
              | none => none
              | some (v, r3) =>
                match skipWs r3 with
                | [] => none
                | e :: r4 =>
                  if e = ',' then
                    (parseFields fuel r4).map (fun p => ((String.mk k, v) :: p.1, p.2))
                  else if e = '\x7d' then some ([ (String.mk k, v) ], r4)
                  else none
            else none
      else none

end

/-- Parse a whole JSON document, as `serde_json::from_slice` does:
one value, optionally surrounded by whitespace, nothing after it. -/
def parseJson (s : String) : Option Json :=
  match parseValue (s.data.length + 1) s.data with
  | some (v, rest) => if skipWs rest = [] then some v else none
  | none => none

/-- True when the input does not continue with a decimal digit (so a number
token read up to here is complete). -/
def headNotDigit : List Char → Bool
  | [] => true
  | c :: _ => !c.isDigit

/-- The value of a digit string, accumulated left to right onto `acc`. -/
def digitsVal (acc : Nat) (l : List Char) : Nat :=
  l.foldl (fun a c => a * 10 + (c.toNat - 48)) acc

theorem stringMk_data (s : String) : String.mk s.data = s := rfl

theorem isDigit_iff (c : Char) : c.isDigit = true ↔ 48 ≤ c.toNat ∧ c.toNat ≤ 57 := by
  simp only [Char.isDigit, Bool.and_eq_true, decide_eq_true_eq, ge_iff_le, Char.le_def,
    UInt32.le_def, BitVec.le_def]
  exact Iff.rfl

theorem char_toNat_ofNat (n : Nat) (h : n < 55296) : (Char.ofNat n).toNat = n := by
  have hv : n.isValidChar := Or.inl h
  simp only [Char.ofNat, hv, dif_pos, Char.ofNatAux, Char.toNat, UInt32.toNat]
  exact BitVec.toNat_ofNatLt _ _

/-- A decimal digit character is none of the structural characters of the
JSON grammar. -/
theorem digit_facts (c : Char) (h : c.isDigit = true) :
    c ≠ 'n' ∧ c ≠ 't' ∧ c ≠ 'f' ∧ c ≠ '"' ∧ c ≠ '[' ∧ c ≠ '\x7b' ∧ c ≠ ']' ∧ c ≠ '\x7d' ∧
      c ≠ ',' ∧ c ≠ '-' ∧ c ≠ ':' ∧ c ≠ '\\' := by
  rw [isDigit_iff] at h
  obtain ⟨h1, h2⟩ := h
  refine ⟨?_, ?_, ?_, ?_, ?_, ?_, ?_, ?_, ?_, ?_, ?_, ?_⟩
  all_goals (intro he; subst he; revert h1 h2; decide)

/-- A decimal digit character is not whitespace. -/
theorem digit_not_ws (c : Char) (h : c.isDigit = true) : isWs c = false := by
  rw [isDigit_iff] at h
  obtain ⟨h1, h2⟩ := h
  cases hc : isWs c with
  | false => rfl
  | true =>
    exfalso
    simp only [isWs, Bool.or_eq_true, decide_eq_true_eq] at hc
    rcases hc with ((rfl | rfl) | rfl) | rfl <;> revert h1 h2 <;> decide

theorem skipWs_cons_not_ws (c : Char) (cs : List Char) (h : isWs c = false) :
    skipWs (c :: cs) = c :: cs := by
  simp [skipWs, h]

theorem skipWs_ws_append (l s : List Char) (h : ∀ c ∈ l, isWs c = true) :
    skipWs (l ++ s) = skipWs s := by
  induction l with
  | nil => simp
  | cons c cs ih =>
    have hc := h c (by simp)
    simp only [List.cons_append, skipWs, hc, if_pos]
    exact ih (fun d hd => h d (by simp [hd]))

theorem skipWs_indent (n : Nat) (s : List Char) : skipWs (indentC n ++ s) = skipWs s := by
  refine skipWs_ws_append _ _ (fun c hc => ?_)
  simp only [indentC, List.mem_replicate] at hc
  simp [hc.2, isWs]

theorem skipWs_nl (s : List Char) : skipWs ('\n' :: s) = skipWs s := by
  simp [skipWs, isWs]

theorem skipWs_space (s : List Char) : skipWs (' ' :: s) = skipWs s := by
  simp [skipWs, isWs]

theorem digitChar_toNat (d : Nat) (h : d < 10) : (digitChar d).toNat = 48 + d := by
  exact char_toNat_ofNat _ (by omega)

theorem digitChar_isDigit (d : Nat) (h : d < 10) : (digitChar d).isDigit = true := by
  rw [isDigit_iff, digitChar_toNat d h]
  omega

theorem natChars_all_digit (n : Nat) : ∀ c ∈ natChars n, c.isDigit = true := by
  induction n using Nat.strong_induction_on with
  | _ n ih =>
    rw [natChars]
    by_cases h : n < 10
    · rw [if_pos h]
      simp only [List.mem_singleton]
      rintro c rfl
      exact digitChar_isDigit n h
    · rw [if_neg h]
      simp only [List.mem_append, List.mem_singleton]
      rintro c (hc | rfl)
      · exact ih (n / 10) (Nat.div_lt_self (by omega) (by omega)) c hc
      · exact digitChar_isDigit _ (Nat.mod_lt _ (by omega))

theorem natChars_ne_nil (n : Nat) : natChars n ≠ [] := by
  rw [natChars]
  by_cases h : n < 10
  · rw [if_pos h]; simp
  · rw [if_neg h]; simp

theorem parseNatLoop_spec (l : List Char) (acc : Nat) (rest : List Char)
    (hl : ∀ c ∈ l, c.isDigit = true) (hr : headNotDigit rest = true) :
    parseNatLoop acc (l ++ rest) = (digitsVal acc l, rest) := by
  induction l generalizing acc with
  | nil =>
    simp only [List.nil_append, digitsVal, List.foldl_nil]
    cases rest with
    | nil => rfl
    | cons c cs =>
      simp only [headNotDigit, Bool.not_eq_true'] at hr
      simp [parseNatLoop, hr]
  | cons c cs ih =>
    have hc := hl c (by simp)
    simp only [List.cons_append, parseNatLoop, hc, if_pos, digitsVal, List.foldl_cons]
    exact ih _ (fun d hd => hl d (by simp [hd]))

theorem digitsVal_append (acc : Nat) (l1 l2 : List Char) :
    digitsVal acc (l1 ++ l2) = digitsVal (digitsVal acc l1) l2 := by
  simp [digitsVal, List.foldl_append]

theorem digitsVal_natChars (n : Nat) : ∀ acc : Nat,
    digitsVal acc (natChars n) = acc * 10 ^ (natChars n).length + n := by
  induction n using Nat.strong_induction_on with
  | _ n ih =>
    intro acc
    rw [natChars]
    by_cases h : n < 10
    · rw [if_pos h]
      simp only [digitsVal, List.foldl_cons, List.foldl_nil, List.length_singleton]
      rw [digitChar_toNat n h]
      omega
    · rw [if_neg h]
      simp only [digitsVal_append, List.length_append, List.length_singleton]
      have hd := ih (n / 10) (Nat.div_lt_self (by omega) (by omega)) acc
      rw [hd]
      simp only [digitsVal, List.foldl_cons, List.foldl_nil]
      rw [digitChar_toNat _ (Nat.mod_lt _ (by omega))]
      have hmod := Nat.div_add_mod n 10
      have hpow : 10 ^ ((natChars (n / 10)).length + 1) = 10 ^ (natChars (n / 10)).length * 10 :=
        pow_succ 10 _
      rw [hpow]
      set p := 10 ^ (natChars (n / 10)).length
      have : (acc * p + n / 10) * 10 + (48 + n % 10 - 48) = acc * (p * 10) + (n / 10 * 10 + n % 10) := by
        ring_nf
        omega
      omega

theorem parseNumToken_nat (m : Nat) (rest : List Char) (hr : headNotDigit rest = true) :
    parseNumToken (natChars m ++ rest) = some (.num (m : Int), rest) := by
  cases hnc : natChars m with
  | nil => exact absurd hnc (natChars_ne_nil m)
  | cons d t =>
    have hall : ∀ c ∈ (d :: t : List Char), c.isDigit = true := by
      rw [← hnc]; exact natChars_all_digit m
    have hd : d.isDigit = true := hall d (by simp)
    have hne := digit_facts d hd
    have hloop : parseNatLoop 0 ((d :: t) ++ rest) = (digitsVal 0 (d :: t), rest) :=
      parseNatLoop_spec _ _ _ hall hr
    have hval : digitsVal 0 (d :: t) = m := by
      rw [← hnc, digitsVal_natChars]
      simp
    have hmin : d ≠ '-' := hne.2.2.2.2.2.2.2.2.2.1
    rw [show (d :: t) ++ rest = d :: (t ++ rest) from rfl, parseNumToken.eq_def]
    simp only [hmin, if_neg, not_false_iff, hd, if_pos, if_true]
    rw [show d :: (t ++ rest) = (d :: t) ++ rest from rfl, hloop, hval]

theorem parseNumToken_int (n : Int) (rest : List Char) (hr : headNotDigit rest = true) :
    parseNumToken (intChars n ++ rest) = some (.num n, rest) := by
  rw [intChars]
  by_cases h : n < 0
  · rw [if_pos h]
    cases hnc : natChars (-n).toNat with
    | nil => exact absurd hnc (natChars_ne_nil _)
    | cons d t =>
      have hall : ∀ c ∈ (d :: t : List Char), c.isDigit = true := by
        rw [← hnc]; exact natChars_all_digit _
      have hd : d.isDigit = true := hall d (by simp)
      have hloop : parseNatLoop 0 ((d :: t) ++ rest) = (digitsVal 0 (d :: t), rest) :=
        parseNatLoop_spec _ _ _ hall hr
      have hval : digitsVal 0 (d :: t) = (-n).toNat := by
        rw [← hnc, digitsVal_natChars]
        simp
      rw [show ('-' :: (d :: t)) ++ rest = '-' :: (d :: (t ++ rest)) from rfl,
        parseNumToken.eq_def]
      simp only [if_pos, if_true, hd]
      rw [show d :: (t ++ rest) = (d :: t) ++ rest from rfl, hloop, hval]
      have hnn : (((-n).toNat : Int)) = -n := Int.toNat_of_nonneg (by omega)
      rw [hnn]
      simp
  · rw [if_neg h]
    rw [parseNumToken_nat _ _ hr]
    have : ((n.toNat : Int)) = n := Int.toNat_of_nonneg (by omega)
    rw [this]

theorem parseHex_hexDigit : ∀ d, d < 16 → parseHex (hexDigitChar d) = some d := by decide

theorem parseStringBody_escape (l rest : List Char) :
    parseStringBody (escapeList l ++ '"' :: rest) = some (l, rest) := by
  induction l with
  | nil =>
    rw [show escapeList [] ++ '"' :: rest = '"' :: rest from rfl, parseStringBody.eq_def]
    simp
  | cons c cs ih =>
    show parseStringBody ((escapeChar c ++ escapeList cs) ++ '"' :: rest) = _
    rw [List.append_assoc]
    by_cases h1 : c = '"'
    · subst h1
      rw [escapeChar, if_pos rfl, show ([ '\\', '"' ] : List Char) ++ (escapeList cs ++ '"' :: rest) =
        '\\' :: '"' :: (escapeList cs ++ '"' :: rest) from rfl, parseStringBody.eq_def]
      simp [ih]
    · by_cases h2 : c = '\\'
      · subst h2
        rw [escapeChar, if_neg (by decide), if_pos rfl,
          show ([ '\\', '\\' ] : List Char) ++ (escapeList cs ++ '"' :: rest) =
            '\\' :: '\\' :: (escapeList cs ++ '"' :: rest) from rfl, parseStringBody.eq_def]
        simp [ih]
      · by_cases h3 : c.toNat < 32
        · rw [escapeChar, if_neg h1, if_neg h2, if_pos h3]
          have e1 : parseHex '0' = some 0 := by decide
          have e2 : parseHex (hexDigitChar (c.toNat / 16)) = some (c.toNat / 16) :=
            parseHex_hexDigit _ (by omega)
          have e3 : parseHex (hexDigitChar (c.toNat % 16)) = some (c.toNat % 16) :=
            parseHex_hexDigit _ (by omega)
          rw [show ([ '\\', 'u', '0', '0', hexDigitChar (c.toNat / 16),
                hexDigitChar (c.toNat % 16) ] : List Char) ++ (escapeList cs ++ '"' :: rest) =
              '\\' :: 'u' :: '0' :: '0' :: hexDigitChar (c.toNat / 16) ::
                hexDigitChar (c.toNat % 16) :: (escapeList cs ++ '"' :: rest) from rfl,
            parseStringBody.eq_def]
          simp only [e1, e2, e3, ih, Option.map_some]
          rw [if_neg (show ¬ ('\\' : Char) = '"' by decide),
            if_neg (show ¬ ('u' : Char) = '"' by decide),
            if_neg (show ¬ ('u' : Char) = '\\' by decide)]
          have hv : ((0 * 16 + 0) * 16 + c.toNat / 16) * 16 + c.toNat % 16 = c.toNat := by
            omega
          rw [hv, Char.ofNat_toNat]
          simp
        · rw [escapeChar, if_neg h1, if_neg h2, if_neg h3,
            show ([ c ] : List Char) ++ (escapeList cs ++ '"' :: rest) =
              c :: (escapeList cs ++ '"' :: rest) from rfl, parseStringBody.eq_def]
          simp [h1, h2, ih]

/-- The first character of a printed integer: a minus sign or a digit. -/
theorem intChars_head (n : Int) :
    ∃ c t, intChars n = c :: t ∧ (c = '-' ∨ c.isDigit = true) := by
  rw [intChars]
  by_cases h : n < 0
  · rw [if_pos h]
    exact ⟨'-', _, rfl, Or.inl rfl⟩
  · rw [if_neg h]
    cases hnc : natChars n.toNat with
    | nil => exact absurd hnc (natChars_ne_nil _)
    | cons d t =>
      refine ⟨d, t, rfl, Or.inr ?_⟩
      exact natChars_all_digit _ d (by rw [hnc]; simp)

/-- A minus sign or digit is not a keyword initial, quote, bracket, brace
or whitespace. -/
theorem numHead_facts (c : Char) (h : c = '-' ∨ c.isDigit = true) :
    c ≠ 'n' ∧ c ≠ 't' ∧ c ≠ 'f' ∧ c ≠ '"' ∧ c ≠ '[' ∧ c ≠ '\x7b' ∧ c ≠ ']' ∧ c ≠ '\x7d' ∧
      isWs c = false := by
  rcases h with rfl | h
  · refine ⟨by decide, by decide, by decide, by decide, by decide, by decide, by decide,
      by decide, by decide⟩
  · have hd := digit_facts c h
    exact ⟨hd.1, hd.2.1, hd.2.2.1, hd.2.2.2.1, hd.2.2.2.2.1, hd.2.2.2.2.2.1,
      hd.2.2.2.2.2.2.1, hd.2.2.2.2.2.2.2.1, digit_not_ws c h⟩

/-- Every printed JSON value starts with a character that is not
whitespace, not a closing bracket and not a closing brace. -/
theorem printJson_head (ind : Nat) (v : Json) :
    ∃ c t, printJson ind v = c :: t ∧ isWs c = false ∧ c ≠ ']' ∧ c ≠ '\x7d' := by
  cases v with
  | null => exact ⟨'n', [ 'u', 'l', 'l' ], by simp [printJson], by decide, by decide, by decide⟩
  | jbool b =>
    cases b with
    | true => exact ⟨'t', [ 'r', 'u', 'e' ], by simp [printJson], by decide, by decide, by decide⟩
    | false =>
      exact ⟨'f', [ 'a', 'l', 's', 'e' ], by simp [printJson], by decide, by decide, by decide⟩
  | num n =>
    obtain ⟨c, t, hct, hc⟩ := intChars_head n
    have hf := numHead_facts c hc
    exact ⟨c, t, by simp [printJson, hct], hf.2.2.2.2.2.2.2.2, hf.2.2.2.2.2.2.1,
      hf.2.2.2.2.2.2.2.1⟩
  | str s =>
    exact ⟨'"', escapeList s.data ++ [ '"' ], by simp [printJson], by decide, by decide,
      by decide⟩
  | arr es =>
    cases es with
    | nil => exact ⟨'[', [ ']' ], by simp [printJson], by decide, by decide, by decide⟩
    | cons x xs =>
      exact ⟨'[', '\n' :: (printElems (ind + 2) x xs ++ '\n' :: (indentC ind ++ [ ']' ])),
        by simp [printJson], by decide, by decide, by decide⟩
  | obj fs =>
    cases fs with
    | nil => exact ⟨'\x7b', [ '\x7d' ], by simp [printJson], by decide, by decide, by decide⟩
    | cons f fs =>
      exact ⟨'\x7b', '\n' :: (printFields (ind + 2) f fs ++ '\n' :: (indentC ind ++ [ '\x7d' ])),
        by simp [printJson], by decide, by decide, by decide⟩

/-- A printed JSON value followed by anything needs no whitespace
skipping. -/
theorem skipWs_printJson_append (ind : Nat) (v : Json) (r : List Char) :
    skipWs (printJson ind v ++ r) = printJson ind v ++ r := by
  obtain ⟨c, t, hct, hws, -, -⟩ := printJson_head ind v
  rw [hct, List.cons_append]
  exact skipWs_cons_not_ws _ _ hws

mutual

/-- Parser fuel sufficient for a JSON value (one unit per parser call). -/
def jfuel : Json → Nat
  | .null => 1
  | .jbool _ => 1
  | .num _ => 1
  | .str _ => 1
  | .arr xs => 1 + jfuelL xs
  | .obj fs => 1 + jfuelF fs
termination_by v => sizeOf v
decreasing_by all_goals (simp_wf; try omega)

/-- Parser fuel sufficient for a list of array elements. -/
def jfuelL : List Json → Nat
  | [] => 0
  | x :: xs => 1 + jfuel x + jfuelL xs
termination_by xs => sizeOf xs
decreasing_by all_goals (simp_wf; try omega)

/-- Parser fuel sufficient for a list of object fields. -/
def jfuelF : List (String × Json) → Nat
  | [] => 0
  | (_, v) :: fs => 1 + jfuel v + jfuelF fs
termination_by fs => sizeOf fs
decreasing_by all_goals (simp_wf; try omega)

end

theorem jfuel_pos (v : Json) : 1 ≤ jfuel v := by
  cases v <;> simp [jfuel]

mutual

/-- The fuel needed to parse a value is at most the length of its printed
form. -/
theorem jfuel_le_print (ind : Nat) (v : Json) : jfuel v ≤ (printJson ind v).length := by
  cases v with
  | null => simp [jfuel, printJson]
  | jbool b => cases b <;> simp [jfuel, printJson]
  | num n =>
    obtain ⟨c, t, hct, -⟩ := intChars_head n
    simp [jfuel, printJson, hct]
  | str s => simp [jfuel, printJson]
  | arr es =>
    cases es with
    | nil => simp [jfuel, jfuelL, printJson]
    | cons x xs =>
      have h := jfuelL_le_print (ind + 2) x xs
      simp only [jfuel, printJson, List.length_cons, List.length_append, indentC,
        List.length_replicate, List.length_singleton]
      omega
  | obj fs =>
    cases fs with
    | nil => simp [jfuel, jfuelF, printJson]
    | cons f fs =>
      have h := jfuelF_le_print (ind + 2) f fs
      simp only [jfuel, printJson, List.length_cons, List.length_append, indentC,
        List.length_replicate, List.length_singleton]
      omega
termination_by sizeOf v
decreasing_by all_goals (simp_wf; try omega)

/-- The fuel needed to parse a nonempty element list is at most one more
than the length of its printed form. -/
theorem jfuelL_le_print (ind : Nat) (x : Json) (xs : List Json) :
    jfuelL (x :: xs) ≤ (printElems ind x xs).length + 1 := by
  cases xs with
  | nil =>
    have h := jfuel_le_print ind x
    simp only [jfuelL, printElems, List.length_append, indentC, List.length_replicate]
    omega
  | cons y ys =>
    have h1 := jfuel_le_print ind x
    have h2 := jfuelL_le_print ind y ys
    simp only [jfuelL, printElems, List.length_append, List.length_cons, indentC,
      List.length_replicate] at h2 ⊢
    omega
termination_by sizeOf x + sizeOf xs
decreasing_by all_goals (simp_wf; try omega)

/-- The fuel needed to parse a nonempty field list is at most one more
than the length of its printed form. -/
theorem jfuelF_le_print (ind : Nat) (f : String × Json) (fs : List (String × Json)) :
    jfuelF (f :: fs) ≤ (printFields ind f fs).length + 1 := by
  obtain ⟨k, v⟩ := f
  cases fs with
  | nil =>
    have h := jfuel_le_print ind v
    simp only [jfuelF, printFields, List.length_append, indentC, List.length_replicate]
    omega
  | cons g gs =>
    have h1 := jfuel_le_print ind v
    have h2 := jfuelF_le_print ind g gs
    simp only [jfuelF, printFields, List.length_append, List.length_cons, indentC,
      List.length_replicate] at h2 ⊢
    omega
termination_by sizeOf f + sizeOf fs
decreasing_by all_goals (simp_wf; try omega)

end

theorem headNotDigit_comma (l : List Char) : headNotDigit (',' :: l) = true := by
  rw [headNotDigit]; decide

theorem headNotDigit_nl (l : List Char) : headNotDigit ('\n' :: l) = true := by
  rw [headNotDigit]; decide

/-- Skipping whitespace over a printed element list exposes the printed
first element. -/
theorem skipWs_printElems (ind : Nat) (x : Json) (xs : List Json) (w : List Char) :
    ∃ q, skipWs (printElems ind x xs ++ w) = printJson ind x ++ q := by
  cases xs with
  | nil =>
    refine ⟨w, ?_⟩
    rw [show printElems ind x [] ++ w = indentC ind ++ (printJson ind x ++ w) from by
      simp [printElems], skipWs_indent, skipWs_printJson_append]
  | cons y ys =>
    refine ⟨',' :: '\n' :: (printElems ind y ys ++ w), ?_⟩
    rw [show printElems ind x (y :: ys) ++ w =
      indentC ind ++ (printJson ind x ++ (',' :: '\n' :: (printElems ind y ys ++ w))) from by
        simp [printElems], skipWs_indent, skipWs_printJson_append]

/-- Skipping whitespace over a printed field list exposes the opening
quote of the first key. -/
theorem skipWs_printFields (ind : Nat) (f : String × Json) (fs : List (String × Json))
    (w : List Char) : ∃ q, skipWs (printFields ind f fs ++ w) = '"' :: q := by
  obtain ⟨k, v⟩ := f
  cases fs with
  | nil =>
    refine ⟨escapeList k.data ++ ('"' :: ':' :: ' ' :: (printJson ind v ++ w)), ?_⟩
    rw [show printFields ind (k, v) [] ++ w = indentC ind ++
        ('"' :: (escapeList k.data ++ ('"' :: ':' :: ' ' :: (printJson ind v ++ w)))) from by
      simp [printFields, keyChars], skipWs_indent]
    exact skipWs_cons_not_ws _ _ (by decide)
  | cons g gs =>
    refine ⟨escapeList k.data ++ ('"' :: ':' :: ' ' ::
      (printJson ind v ++ (',' :: '\n' :: (printFields ind g gs ++ w)))), ?_⟩
    rw [show printFields ind (k, v) (g :: gs) ++ w = indentC ind ++
        ('"' :: (escapeList k.data ++ ('"' :: ':' :: ' ' :: (printJson ind v ++
          (',' :: '\n' :: (printFields ind g gs ++ w)))))) from by
      simp [printFields, keyChars], skipWs_indent]
    exact skipWs_cons_not_ws _ _ (by decide)

mutual

/-- Round trip of one printed JSON value: parsing any input whose
whitespace-normal form is the printed value followed by `rest` yields the
value and `rest` (given enough fuel, and `rest` not continuing a number
token). -/
theorem parseValue_print (fuel ind : Nat) (v : Json) (rest s : List Char)
    (hf : jfuel v ≤ fuel) (hs : skipWs s = printJson ind v ++ rest)
    (hr : headNotDigit rest = true) :
    parseValue fuel s = some (v, rest) := by
  cases fuel with
  | zero => exact absurd hf (by have := jfuel_pos v; omega)
  | succ g =>
    cases v with
    | null =>
      simp only [printJson, List.cons_append, List.nil_append] at hs
      rw [parseValue.eq_def]
      simp only [hs]
      simp [expectChars]
    | jbool b =>
      cases b with
      | true =>
        simp only [printJson, List.cons_append, List.nil_append] at hs
        rw [parseValue.eq_def]
        simp only [hs]
        simp [expectChars]
      | false =>
        simp only [printJson, List.cons_append, List.nil_append] at hs
        rw [parseValue.eq_def]
        simp only [hs]
        simp [expectChars]
    | num n =>
      simp only [printJson] at hs
      obtain ⟨c, t, hct, hc⟩ := intChars_head n
      have hnf := numHead_facts c hc
      rw [hct, List.cons_append] at hs
      rw [parseValue.eq_def]
      simp only [hs]
      rw [if_neg hnf.1, if_neg hnf.2.1, if_neg hnf.2.2.1, if_neg hnf.2.2.2.1,
        if_neg hnf.2.2.2.2.1, if_neg hnf.2.2.2.2.2.1]
      rw [show c :: (t ++ rest) = (c :: t) ++ rest from rfl, ← hct]
      exact parseNumToken_int n rest hr
    | str s0 =>
      simp only [printJson, List.cons_append, List.append_assoc,
        List.singleton_append] at hs
      rw [parseValue.eq_def]
      simp only [hs]
      simp [parseStringBody_escape, stringMk_data]
    | arr es =>
      cases es with
      | nil =>
        simp only [printJson, List.cons_append, List.nil_append] at hs
        rw [parseValue.eq_def]
        simp only [hs]
        rw [if_neg (by decide), if_neg (by decide), if_neg (by decide), if_neg (by decide)]
        simp only [if_true]
        rw [skipWs_cons_not_ws ']' rest (by decide)]
        simp
      | cons x xs =>
        simp only [printJson, List.cons_append, List.append_assoc,
          List.singleton_append, List.nil_append] at hs
        rw [parseValue.eq_def]
        simp only [hs]
        rw [if_neg (by decide), if_neg (by decide), if_neg (by decide), if_neg (by decide)]
        simp only [if_true]
        obtain ⟨q, hq⟩ := skipWs_printElems (ind + 2) x xs ('\n' :: (indentC ind ++ ']' :: rest))
        obtain ⟨c0, t0, hct0, hws0, hne0, hne0b⟩ := printJson_head (ind + 2) x
        have hcs : skipWs ('\n' :: (printElems (ind + 2) x xs ++
            ('\n' :: (indentC ind ++ ']' :: rest)))) = c0 :: (t0 ++ q) := by
          rw [skipWs_nl, hq, hct0, List.cons_append]
        simp only [hcs]
        rw [if_neg hne0]
        have helems : parseElems g (c0 :: (t0 ++ q)) = some (x :: xs, rest) := by
          refine parseElems_print g (ind + 2) x xs ('\n' :: (indentC ind ++ ']' :: rest))
            rest _ ?_ ?_ ?_ ?_
          · simp only [jfuel] at hf; omega
          · rw [skipWs_cons_not_ws _ _ hws0, ← List.cons_append, ← hct0, ← hq]
          · rw [skipWs_nl, skipWs_indent]
            exact skipWs_cons_not_ws _ _ (by decide)
          · exact headNotDigit_nl _
        simp [helems]
    | obj fs =>
      cases fs with
      | nil =>
        simp only [printJson, List.cons_append, List.nil_append] at hs
        rw [parseValue.eq_def]
        simp only [hs]
        rw [if_neg (by decide), if_neg (by decide), if_neg (by decide), if_neg (by decide),
          if_neg (by decide)]
        simp only [if_true]
        rw [skipWs_cons_not_ws '\x7d' rest (by decide)]
        simp
      | cons f fs =>
        obtain ⟨k, v⟩ := f
        simp only [printJson, List.cons_append, List.append_assoc,
          List.singleton_append, List.nil_append] at hs
        rw [parseValue.eq_def]
        simp only [hs]
        rw [if_neg (by decide), if_neg (by decide), if_neg (by decide), if_neg (by decide),
          if_neg (by decide)]
        simp only [if_true]
        obtain ⟨q, hq⟩ := skipWs_printFields (ind + 2) (k, v) fs
          ('\n' :: (indentC ind ++ '\x7d' :: rest))
        have hcs : skipWs ('\n' :: (printFields (ind + 2) (k, v) fs ++
            ('\n' :: (indentC ind ++ '\x7d' :: rest)))) = '"' :: q := by
          rw [skipWs_nl, hq]
        simp only [hcs]
        rw [if_neg (show ('"' : Char) ≠ '\x7d' by decide)]
        have hflds : parseFields g ('"' :: q) = some ((k, v) :: fs, rest) := by
          refine parseFields_print g (ind + 2) k v fs ('\n' :: (indentC ind ++ '\x7d' :: rest))
            rest _ ?_ ?_ ?_ ?_
          · simp only [jfuel] at hf; omega
          · rw [skipWs_cons_not_ws _ _ (by decide), ← hq]
          · rw [skipWs_nl, skipWs_indent]
            exact skipWs_cons_not_ws _ _ (by decide)
          · exact headNotDigit_nl _
        simp [hflds]
termination_by fuel
decreasing_by all_goals omega

/-- Round trip of a printed nonempty array-element list followed by the
closing bracket. -/
theorem parseElems_print (fuel ind : Nat) (x : Json) (xs : List Json) (w rest s : List Char)
    (hf : jfuelL (x :: xs) ≤ fuel)
    (hs : skipWs s = skipWs (printElems ind x xs ++ w))
    (hw : skipWs w = ']' :: rest) (hwd : headNotDigit w = true) :
    parseElems fuel s = some (x :: xs, rest) := by
  cases fuel with
  | zero => exact absurd hf (by simp only [jfuelL]; omega)
  | succ g =>
    cases xs with
    | nil =>
      have hs1 : skipWs s = printJson ind x ++ w := by
        rw [hs, show printElems ind x [] ++ w = indentC ind ++ (printJson ind x ++ w) from by
          simp [printElems], skipWs_indent, skipWs_printJson_append]
      have hv : parseValue g s = some (x, w) :=
        parseValue_print g ind x w s (by simp only [jfuelL] at hf; omega) hs1 hwd
      rw [parseElems.eq_def]
      simp [hv, hw]
    | cons y ys =>
      have hs1 : skipWs s = printJson ind x ++ (',' :: '\n' :: (printElems ind y ys ++ w)) := by
        rw [hs, show printElems ind x (y :: ys) ++ w =
          indentC ind ++ (printJson ind x ++ (',' :: '\n' :: (printElems ind y ys ++ w))) from by
            simp [printElems], skipWs_indent, skipWs_printJson_append]
      have hv : parseValue g s = some (x, ',' :: '\n' :: (printElems ind y ys ++ w)) :=
        parseValue_print g ind x _ s (by simp only [jfuelL] at hf; omega) hs1
          (headNotDigit_comma _)
      have hrec : parseElems g ('\n' :: (printElems ind y ys ++ w)) = some (y :: ys, rest) :=
        parseElems_print g ind y ys w rest _ (by simp only [jfuelL] at hf ⊢; omega)
          (by rw [skipWs_nl]) hw hwd
      rw [parseElems.eq_def]
      simp [hv, skipWs_cons_not_ws ',' ('\n' :: (printElems ind y ys ++ w)) (by decide), hrec]
termination_by fuel
decreasing_by all_goals omega

/-- Round trip of a printed nonempty object-field list followed by the
closing brace. -/
theorem parseFields_print (fuel ind : Nat) (k : String) (v : Json)
    (fs : List (String × Json)) (w rest s : List Char)
    (hf : jfuelF ((k, v) :: fs) ≤ fuel)
    (hs : skipWs s = skipWs (printFields ind (k, v) fs ++ w))
    (hw : skipWs w = '\x7d' :: rest) (hwd : headNotDigit w = true) :
    parseFields fuel s = some ((k, v) :: fs, rest) := by
  cases fuel with
  | zero => exact absurd hf (by simp only [jfuelF]; omega)
  | succ g =>
    cases fs with
    | nil =>
      have hs1 : skipWs s =
          '"' :: (escapeList k.data ++ ('"' :: ':' :: ' ' :: (printJson ind v ++ w))) := by
        rw [hs, show printFields ind (k, v) [] ++ w = indentC ind ++
            ('"' :: (escapeList k.data ++ ('"' :: ':' :: ' ' :: (printJson ind v ++ w)))) from by
          simp [printFields, keyChars], skipWs_indent]
        exact skipWs_cons_not_ws _ _ (by decide)
      have hv : parseValue g (' ' :: (printJson ind v ++ w)) = some (v, w) :=
        parseValue_print g ind v w _ (by simp only [jfuelF] at hf; omega)
          (by rw [skipWs_space, skipWs_printJson_append]) hwd
      rw [parseFields.eq_def]
      simp [hs1, parseStringBody_escape,
        skipWs_cons_not_ws ':' (' ' :: (printJson ind v ++ w)) (by decide), hv, hw,
        stringMk_data]
    | cons gp gs =>
      obtain ⟨k2, v2⟩ := gp
      have hs1 : skipWs s = '"' :: (escapeList k.data ++ ('"' :: ':' :: ' ' ::
          (printJson ind v ++ (',' :: '\n' :: (printFields ind (k2, v2) gs ++ w))))) := by
        rw [hs, show printFields ind (k, v) ((k2, v2) :: gs) ++ w = indentC ind ++
            ('"' :: (escapeList k.data ++ ('"' :: ':' :: ' ' :: (printJson ind v ++
              (',' :: '\n' :: (printFields ind (k2, v2) gs ++ w)))))) from by
          simp [printFields, keyChars], skipWs_indent]
        exact skipWs_cons_not_ws _ _ (by decide)
      have hv : parseValue g (' ' :: (printJson ind v ++
          (',' :: '\n' :: (printFields ind (k2, v2) gs ++ w)))) =
          some (v, ',' :: '\n' :: (printFields ind (k2, v2) gs ++ w)) :=
        parseValue_print g ind v _ _ (by simp only [jfuelF] at hf; omega)
          (by rw [skipWs_space, skipWs_printJson_append]) (headNotDigit_comma _)
      have hrec : parseFields g ('\n' :: (printFields ind (k2, v2) gs ++ w)) =
          some ((k2, v2) :: gs, rest) :=
        parseFields_print g ind k2 v2 gs w rest _ (by simp only [jfuelF] at hf ⊢; omega)
          (by rw [skipWs_nl]) hw hwd
      rw [parseFields.eq_def]
      simp [hs1, parseStringBody_escape,
        skipWs_cons_not_ws ':' (' ' :: (printJson ind v ++
          (',' :: '\n' :: (printFields ind (k2, v2) gs ++ w)))) (by decide),
        hv, skipWs_cons_not_ws ',' ('\n' :: (printFields ind (k2, v2) gs ++ w)) (by decide),
        hrec, stringMk_data]
termination_by fuel
decreasing_by all_goals omega

end

/-- Full round trip: parsing a pretty-printed JSON document recovers the
value. -/
theorem parseJson_pretty (v : Json) : parseJson (prettyString v) = some v := by
  have hfu : jfuel v ≤ (printJson 0 v).length + 1 := by
    have := jfuel_le_print 0 v
    omega
  have hs : skipWs (printJson 0 v) = printJson 0 v ++ [] := by
    have h := skipWs_printJson_append 0 v []
    simpa using h
  have hpv : parseValue ((printJson 0 v).length + 1) (printJson 0 v) = some (v, []) :=
    parseValue_print _ 0 v [] _ hfu hs rfl
  rw [parseJson, prettyString]
  simp only [show (String.mk (printJson 0 v)).data = printJson 0 v from rfl, hpv]
  simp [skipWs]

/-! ## Response Translation Layer

`handle_response` lives in `htsget-actix/src/handlers/mod.rs`: on `Err` it
renders `error.to_json_representation()` with the derived status code, on
`Ok` it renders the payload with status 200, both as `PrettyJson`.  The
error type itself (`htsget_http::HtsGetError`) is not among the embedded
sources, so its kinds and `to_json_representation` are modelled from the
specification (§7 of the spec). -/

/-- Modelled from the spec: the closed error-kind enumeration of §7
(`htsget_http`'s error type is not among the embedded sources). -/
inductive ErrorKind where
  | NoMatch : ErrorKind
  | InvalidInput : ErrorKind
  | Forbidden : ErrorKind
  | BackendError : ErrorKind
  | InternalConfigError : ErrorKind
deriving Repr, DecidableEq

/-- Modelled from the spec: the fixed, total error-kind → status-code
mapping of the §7 table. -/
def statusOfErrorKind : ErrorKind → Nat
  | .NoMatch => 404
  | .InvalidInput => 400
  | .Forbidden => 403
  | .BackendError => 500
  | .InternalConfigError => 500

/-- The wire name of an error kind, used in the error body. -/
def errorKindString : ErrorKind → String
  | .NoMatch => "NoMatch"
  | .InvalidInput => "InvalidInput"
  | .Forbidden => "Forbidden"
  | .BackendError => "BackendError"
  | .InternalConfigError => "InternalConfigError"

/-- Modelled from the spec: a typed error carried by a failure outcome
(`Failure(error_kind, message)`). -/
structure HtsGetError where
  kind : ErrorKind
  message : String
deriving Repr, DecidableEq

/-- Modelled from the spec: `error.to_json_representation()` — the JSON
error body (minimum fields `error` and `message`, §6) paired with the
status code from the §7 table. -/
def HtsGetError.toJsonRepresentation (e : HtsGetError) : Json × Nat :=
  (Json.obj [ ("error", Json.str (errorKindString e.kind)),
              ("message", Json.str e.message) ],
   statusOfErrorKind e.kind)

/-- A wire-level HTTP response as produced by the Response Translation
Layer: a status code and a JSON text body (the content type is always
`application/json`). -/
structure HttpResponse where
  status : Nat
  body : String
deriving Repr, DecidableEq

/-- `handle_response` from `htsget-actix/src/handlers/mod.rs`: an `Err`
outcome is rendered from its JSON representation with the derived status
code, an `Ok` payload is rendered with status 200; both bodies are
pretty-printed JSON. -/
def handle_response (response : Except HtsGetError Json) : HttpResponse :=
  match response with
  | .error error =>
    let p := error.toJsonRepresentation
    ⟨p.2, prettyString p.1⟩
  | .ok json => ⟨200, prettyString json⟩

/-! ## Resolver Matching Engine

`htsget_config::resolver::Resolver` is declared and called by the embedded
sources (`default_test_resolver` in `htsget-test/src/http_tests.rs`) but
its own code is not among them, so the engine below — regular expressions
over identifiers, capture groups, substitution templates, guards, ordered
first-match resolution — is modelled from the specification (§3, §4.1). -/

/-- Modelled from the spec: regular expressions over identifier strings
(the subset used by resolver patterns: literals, `.`, `*`, grouping,
alternation). -/
inductive Regex where
  | eps : Regex
  | chr (c : Char) : Regex
  | dot : Regex
  | cat (r1 r2 : Regex) : Regex
  | alt (r1 r2 : Regex) : Regex
  | star (r : Regex) : Regex
  | group (idx : Nat) (r : Regex) : Regex
deriving Repr, DecidableEq

/-- Structural size of a regular expression (used to bound matcher fuel). -/
def rsize : Regex → Nat
  | .eps => 1
  | .chr _ => 1
  | .dot => 1
  | .cat r1 r2 => 1 + rsize r1 + rsize r2
  | .alt r1 r2 => 1 + rsize r1 + rsize r2
  | .star r => 1 + rsize r
  | .group _ r => 1 + rsize r

/-- Backtracking regex matcher: all ways (in priority order, greedy `*`
first) the expression can match a prefix of the input, each with the
remaining suffix and the capture list `(group index, captured text)`. -/
def rmatch : Nat → Regex → List Char → List (List Char × List (Nat × List Char))
  | 0, _, _ => []
  | fuel + 1, r, s =>
    match r with
    | .eps => [ (s, []) ]
    | .chr c =>
      match s with
      | [] => []
      | x :: xs => if x = c then [ (xs, []) ] else []
    | .dot =>
      match s with
      | [] => []
      | _ :: xs => [ (xs, []) ]
    | .cat r1 r2 =>
      (rmatch fuel r1 s).flatMap (fun p =>
        (rmatch fuel r2 p.1).map (fun q => (q.1, p.2 ++ q.2)))
    | .alt r1 r2 => rmatch fuel r1 s ++ rmatch fuel r2 s
    | .star r0 =>
      ((rmatch fuel r0 s).filter (fun p => p.1.length < s.length)).flatMap (fun p =>
        (rmatch fuel (.star r0) p.1).map (fun q => (q.1, p.2 ++ q.2))) ++ [ (s, []) ]
    | .group i r0 =>
      (rmatch fuel r0 s).map (fun p =>
        (p.1, p.2 ++ [ (i, s.take (s.length - p.1.length)) ]))

/-- Match a pattern against an identifier in full (not substring, §4.1):
the capture list of the first (highest-priority) match that consumes the
whole input, or `none`. -/
def fullMatch (r : Regex) (s : List Char) : Option (List (Nat × List Char)) :=
  (((rmatch ((s.length + 1) * (rsize r + 2) + 1) r s).filter
    (fun p => p.1.isEmpty)).head?).map Prod.snd

/-- Modelled from the spec: one piece of a substitution template — a
literal character or a positional capture-group reference (`$n`). -/
inductive TemplatePiece where
  | lit (c : Char) : TemplatePiece
  | ref (n : Nat) : TemplatePiece
deriving Repr, DecidableEq

/-- Split a maximal run of leading decimal digits. -/
def takeDigits : List Char → List Char × List Char
  | [] => ([], [])
  | c :: cs =>
    if c.isDigit then
      let p := takeDigits cs
      (c :: p.1, p.2)
    else ([], c :: cs)

/-- Parse a substitution template: `$` followed by digits is a positional
group reference, everything else is literal. -/
def parseTemplateAux : Nat → List Char → List TemplatePiece
  | 0, _ => []
  | _ + 1, [] => []
  | fuel + 1, c :: cs =>
    if c = '$' then
      let p := takeDigits cs
      match p.1 with
      | [] => .lit '$' :: parseTemplateAux fuel cs
      | ds => .ref (digitsVal 0 ds) :: parseTemplateAux fuel p.2
    else .lit c :: parseTemplateAux fuel cs

/-- Parse a substitution template string. -/
def parseTemplate (s : String) : List TemplatePiece :=
  parseTemplateAux (s.data.length + 1) s.data

/-- The highest capture group a template refers to (0 when none). -/
def maxGroupRef (t : List TemplatePiece) : Nat :=
  t.foldl (fun m p => match p with | .ref n => max m n | .lit _ => m) 0

/-- The text captured by group `n` (the last occurrence wins, empty when
the group did not participate in the match). -/
def lookupCapture (caps : List (Nat × List Char)) (n : Nat) : List Char :=
  match caps.reverse.find? (fun p => p.1 == n) with
  | some p => p.2
  | none => []

/-- Apply a substitution template: `$0` is the whole match, `$n` the text
of capture group `n`. -/
def applyTemplate (t : List TemplatePiece) (whole : List Char)
    (caps : List (Nat × List Char)) : List Char :=
  t.flatMap (fun p =>
    match p with
    | .lit c => [ c ]
    | .ref 0 => whole
    | .ref n => lookupCapture caps n)

mutual

/-- Parse a concatenation of regex pieces up to a closing parenthesis or
the end of the pattern; `g` is the next capture-group number. -/
def parseRegexCat : Nat → List Char → Nat → Option (Regex × List Char × Nat)
  | 0, _, _ => none
  | fuel + 1, s, g =>
    match s with
    | [] => some (.eps, [], g)
    | ')' :: _ => some (.eps, s, g)
    | _ =>
      match parseRegexAtom fuel s g with
      | none => none
      | some (r1, s1, g1) =>
        match s1 with
        | '*' :: s2 =>
          (parseRegexCat fuel s2 g1).map (fun q => (.cat (.star r1) q.1, q.2.1, q.2.2))
        | _ =>
          (parseRegexCat fuel s1 g1).map (fun q => (.cat r1 q.1, q.2.1, q.2.2))

/-- Parse one regex atom: a parenthesised capture group, `.`, an escaped
character, or a literal character. -/
def parseRegexAtom : Nat → List Char → Nat → Option (Regex × List Char × Nat)
  | 0, _, _ => none
  | fuel + 1, s, g =>
    match s with
    | [] => none
    | c :: cs =>
      if c = '(' then
        match parseRegexCat fuel cs (g + 1) with
        | none => none
        | some (r, s1, g1) =>
          match s1 with
          | ')' :: s2 => some (.group g r, s2, g1)
          | _ => none
      else if c = ')' then none
      else if c = '*' then none
      else if c = '\\' then
        match cs with
        | [] => none
        | d :: ds => some (.chr d, ds, g)
      else if c = '.' then some (.dot, cs, g)
      else some (.chr c, cs, g)

end

/-- Modelled from the spec: compile a resolver pattern string.  The `^`
and `$` anchors are consumed (matching is against the identifier in full
either way, §4.1); an invalid pattern (unbalanced parenthesis, dangling
`*` or `\`) yields `none`.  Returns the expression and its number of
capture groups. -/
def parseRegex (pattern : String) : Option (Regex × Nat) :=
  let cs := pattern.data
  let cs := match cs with | '^' :: t => t | _ => cs
  let cs := if cs.getLast? = some '$' then cs.dropLast else cs
  match parseRegexCat (2 * cs.length + 2) cs 1 with
  | some (r, [], g) => some (r, g - 1)
  | _ => none

/-- Modelled from the spec: the response scheme (§6, `htsget_config`'s
`Scheme`). -/
inductive Scheme where
  | Http : Scheme
  | Https : Scheme
deriving Repr, DecidableEq

/-- Modelled from the spec: the `Local` storage-binding parameters
(`LocalStorage::new(scheme, authority, local_path, path_prefix)` — the
last field is named `pathRoot` here).  Constructed from configuration,
never by the core. -/
structure LocalStorage where
  scheme : Scheme
  authority : String
  localPath : String
  pathRoot : String
deriving Repr, DecidableEq

/-- `LocalStorage::new`. -/
def LocalStorage.new (scheme : Scheme) (authority localPath pathRoot : String) :
    LocalStorage :=
  ⟨scheme, authority, localPath, pathRoot⟩

/-- Modelled from the spec: the storage-binding tagged union (§3); the
embedded sources construct only the `Local` variant. -/
inductive Storage where
  | Local (local_storage : LocalStorage) : Storage
deriving Repr, DecidableEq

/-- Modelled from the spec: a resolver guard — the schemes it accepts
(§3 `allow_guard`, §4.1). -/
structure AllowGuard where
  allowedSchemes : List Scheme
deriving Repr, DecidableEq

/-- `Default::default()` for a guard: all schemes allowed. -/
def AllowGuard.allowAll : AllowGuard := ⟨[ .Http, .Https ]⟩

/-- Modelled from the spec: the request-scoped context a guard may
inspect (§4.1) — minimally the requested response scheme (§6). -/
structure RequestContext where
  scheme : Scheme
deriving Repr, DecidableEq

/-- Modelled from the spec: configuration-time construction errors
(§7 propagation policy). -/
inductive ConfigError where
  | invalidPattern : ConfigError
  | invalidGroupReference : ConfigError
deriving Repr, DecidableEq

/-- Modelled from the spec: one ordered rule pairing a compiled pattern
with a substitution template, a storage binding and a guard (§3). -/
structure Resolver where
  storage : Storage
  regex : Regex
  groupCount : Nat
  template : List TemplatePiece
  allow_guard : AllowGuard
deriving Repr, DecidableEq

/-- Modelled from the spec: `Resolver::new` — construction fails eagerly
when the pattern does not compile or the substitution references a capture
group the pattern does not define (§4.1 edge case, §7). -/
def Resolver.new (storage : Storage) (pattern substitution : String)
    (guard : AllowGuard) : Except ConfigError Resolver :=
  match parseRegex pattern with
  | none => .error .invalidPattern
  | some (r, g) =>
    let t := parseTemplate substitution
    if maxGroupRef t ≤ g then .ok ⟨storage, r, g, t, guard⟩
    else .error .invalidGroupReference

/-- The resolver's pattern matched against an identifier in full. -/
def Resolver.matchIdentifier (res : Resolver) (id : String) :
    Option (List (Nat × List Char)) :=
  fullMatch res.regex id.data

/-- Whether the request context satisfies the resolver's guard. -/
def Resolver.passesGuard (res : Resolver) (ctx : RequestContext) : Bool :=
  res.allow_guard.allowedSchemes.contains ctx.scheme

/-- Modelled from the spec: resolution errors (§7). -/
inductive ResolutionError where
  | NoMatch : ResolutionError
deriving Repr, DecidableEq

/-- Modelled from the spec (§4.1): iterate the resolver list in configured
order; on the first resolver whose pattern matches the identifier in full
and whose guard accepts the context, apply the substitution and return its
storage binding with the resolved path; otherwise `NoMatch`. -/
def resolve : List Resolver → String → RequestContext →
    Except ResolutionError (Storage × String)
  | [], _, _ => .error .NoMatch
  | res :: rest, id, ctx =>
    match res.matchIdentifier id with
    | some caps =>
      if res.passesGuard ctx then
        .ok (res.storage, String.mk (applyTemplate res.template id.data caps))
      else resolve rest id ctx
    | none => resolve rest id ctx

/-- A placeholder resolver (used only to model `.unwrap()` on a
construction that the tests expect to succeed). -/
def dummyResolver : Resolver :=
  ⟨.Local (LocalStorage.new .Http "" "" ""), .eps, 0, [], AllowGuard.allowAll⟩

/-- `default_test_resolver` from `htsget-test/src/http_tests.rs`: two
resolvers over the same local storage, patterns `^1-(.*)$` and `^2-(.*)$`,
both with substitution `$1` and a default (allow-all) guard.  The
`SocketAddr` is modelled as the authority string and the data directory as
its path string; `.unwrap()` is modelled by defaulting, the constructions
being provably successful. -/
def default_test_resolver (addr : String) (scheme : Scheme) : List Resolver :=
  let local_storage := LocalStorage.new scheme addr "data" "/data"
  [ (Resolver.new (.Local local_storage) "^1-(.*)$" "$1" AllowGuard.allowAll).toOption.getD
      dummyResolver,
    (Resolver.new (.Local local_storage) "^2-(.*)$" "$1" AllowGuard.allowAll).toOption.getD
      dummyResolver ]

/-! ## Header Context Adapter

`From<&HttpRequest> for HeaderMap` in `htsget-actix/src/handlers/mod.rs`
builds `http::HeaderMap::from_iter(http_request.headers().clone().into_iter())`.
Both header maps are external types; they are modelled as the list of
`(name, value)` entries in iteration order, with `from_iter` extending an
empty map by appending each entry in turn (the `http` crate's
`Extend<(HeaderName, T)>` appends, preserving multi-values). -/

/-- `http::HeaderMap::append`: adds an entry at the end, never replacing
existing values of the same name. -/
def headerMapAppend (m : List (String × String)) (e : String × String) :
    List (String × String) :=
  m ++ [ e ]

/-- `http::HeaderMap::from_iter`: the empty map extended by appending each
entry of the iterator in order. -/
def headerMapFromIter (l : List (String × String)) : List (String × String) :=
  l.foldl headerMapAppend []

/-- `From<&HttpRequest> for HeaderMap`: the transport request's headers
copied into the protocol-neutral map. -/
def headerMapFrom (request_headers : List (String × String)) : List (String × String) :=
  headerMapFromIter request_headers

/-- The values carried by one header name, in order. -/
def headerValues (name : String) (m : List (String × String)) : List String :=
  (m.filter (fun e => e.1 == name)).map Prod.snd

/-! ## Test-support `Response` (htsget-test/src/http_tests.rs) -/

/-- `Response` from `htsget-test/src/http_tests.rs`: status (a `u16` in
the source), headers, body and expected URL path.  The body (`Vec<u8>` of
UTF-8 JSON in the source) is modelled as a string. -/
structure Response where
  status : Nat
  headers : List (String × String)
  body : String
  expected_url_path : String
deriving Repr, DecidableEq

/-- `Response::new`. -/
def Response.new (status : Nat) (headers : List (String × String)) (body : String)
    (expected_url_path : String) : Response :=
  ⟨status, headers, body, expected_url_path⟩

/-- `Response::deserialize_body`: parse the body as JSON
(`serde_json::from_slice`). -/
def Response.deserialize_body (r : Response) : Option Json :=
  parseJson r.body

/-- `Response::is_success`: `300 > self.status && self.status >= 200`. -/
def Response.is_success (r : Response) : Bool :=
  300 > r.status && r.status ≥ 200

/-! ## Concrete resolvers used in witnesses -/

/-- The first resolver of `default_test_resolver`: pattern `^1-(.*)$`,
substitution `$1`. -/
def resolverOne : Resolver :=
  (Resolver.new (.Local (LocalStorage.new .Http "127.0.0.1:8081" "data" "/data"))
    "^1-(.*)$" "$1" AllowGuard.allowAll).toOption.getD dummyResolver

/-- A later, more general resolver that also matches every identifier the
first one matches, bound to a different storage. -/
def resolverCatchAll : Resolver :=
  (Resolver.new (.Local (LocalStorage.new .Https "other:8082" "data2" "/data2"))
    "^(.*)$" "$1" AllowGuard.allowAll).toOption.getD dummyResolver

/-! ## The claims -/

/-- C1: for every resolver list and identifier, if resolver `r1` (earlier
in the configured order) and `r2` (later) both match the identifier in
full and pass their guards, `resolve` returns `r1`'s storage binding and
`r1`'s substitution result, never `r2`'s: the result is independent of
everything after `r1`, and evaluation order is exactly the configured
order (no earlier matching resolver is skipped). -/
theorem resolve_first_match_wins
    (l1 : List Resolver) (r1 : Resolver) (l2 : List Resolver) (r2 : Resolver)
    (l3 : List Resolver) (id : String) (ctx : RequestContext)
    (caps : List (Nat × List Char))
    (hearlier : ∀ r ∈ l1, r.matchIdentifier id = none ∨ r.passesGuard ctx = false)
    (hm1 : r1.matchIdentifier id = some caps) (hg1 : r1.passesGuard ctx = true)
    (hm2 : (r2.matchIdentifier id).isSome = true) (hg2 : r2.passesGuard ctx = true) :
    resolve (l1 ++ r1 :: (l2 ++ r2 :: l3)) id ctx =
      .ok (r1.storage, String.mk (applyTemplate r1.template id.data caps)) := by
  induction l1 with
  | nil => simp [resolve, hm1, hg1]
  | cons r0 t ih =>
    have hih := ih (fun r hr => hearlier r (by simp [hr]))
    rcases hearlier r0 (by simp) with h0 | h0
    · simpa [resolve, h0] using hih
    · cases hm0 : r0.matchIdentifier id with
      | none => simpa [resolve, hm0] using hih
      | some c0 => simpa [resolve, hm0, h0] using hih

/-- C1 witness: with `^1-(.*)$` first and a catch-all `^(.*)$` second
(different storage), identifier `1-abc` resolves to the first resolver's
storage and substitution. -/
theorem resolve_first_match_wins_witness :
    resolve [ resolverOne, resolverCatchAll ] "1-abc" ⟨.Http⟩ =
      .ok (.Local (LocalStorage.new .Http "127.0.0.1:8081" "data" "/data"), "abc") :=
  (resolve_first_match_wins [] resolverOne [] resolverCatchAll [] "1-abc" ⟨.Http⟩
    [ (1, [ 'a', 'b', 'c' ]) ] (by simp) (by decide) (by decide) (by decide)
    (by decide)).trans (by decide)

/-- C2: the error-kind → status-code mapping is total and fixed per the §7
table (`NoMatch` 404, `InvalidInput` 400, `Forbidden` 403, `BackendError`
500, `InternalConfigError` 500), and for every identifier matching no
configured resolver pattern `resolve` yields `NoMatch`, whose rendered
response has status 404. -/
theorem resolve_no_match_and_status_total
    (rs : List Resolver) (id : String) (ctx : RequestContext)
    (hnm : ∀ r ∈ rs, r.matchIdentifier id = none) :
    resolve rs id ctx = .error .NoMatch ∧
      statusOfErrorKind .NoMatch = 404 ∧ statusOfErrorKind .InvalidInput = 400 ∧
      statusOfErrorKind .Forbidden = 403 ∧ statusOfErrorKind .BackendError = 500 ∧
      statusOfErrorKind .InternalConfigError = 500 ∧
      ∀ m : String, (handle_response (.error ⟨.NoMatch, m⟩)).status = 404 := by
  refine ⟨?_, rfl, rfl, rfl, rfl, rfl, fun m => rfl⟩
  induction rs with
  | nil => rfl
  | cons r t ih =>
    simp only [resolve, hnm r (by simp)]
    exact ih (fun r hr => hnm r (by simp [hr]))

/-- C2 witness: identifier `3-xyz` matches neither default test resolver
pattern, so resolution is `NoMatch` and the mapped status is 404. -/
theorem resolve_no_match_and_status_total_witness :
    resolve (default_test_resolver "127.0.0.1:8081" .Http) "3-xyz" ⟨.Http⟩ =
        .error .NoMatch ∧
      statusOfErrorKind .NoMatch = 404 ∧ statusOfErrorKind .InvalidInput = 400 ∧
      statusOfErrorKind .Forbidden = 403 ∧ statusOfErrorKind .BackendError = 500 ∧
      statusOfErrorKind .InternalConfigError = 500 ∧
      ∀ m : String, (handle_response (.error ⟨.NoMatch, m⟩)).status = 404 :=
  resolve_no_match_and_status_total (default_test_resolver "127.0.0.1:8081" .Http)
    "3-xyz" ⟨.Http⟩ (by decide)

/-- C3: on every success outcome, `handle_response` produces status
exactly 200 and a body that is the payload serialized as pretty-printed
JSON. -/
theorem handle_response_ok (payload : Json) :
    handle_response (.ok payload) = ⟨200, prettyString payload⟩ := rfl

/-- C4: on every failure outcome, `handle_response` produces the status of
the fixed error-kind mapping and a body that is the JSON object carrying
the error kind and the message, serialized with the same pretty-printing
function as success bodies. -/
theorem handle_response_error (e : HtsGetError) :
    (handle_response (.error e)).status = statusOfErrorKind e.kind ∧
    (handle_response (.error e)).body =
      prettyString (Json.obj [ ("error", Json.str (errorKindString e.kind)),
                               ("message", Json.str e.message) ]) :=
  ⟨rfl, rfl⟩

/-- C5: round trip — for every payload, the body of
`handle_response (Ok payload)`, parsed as JSON, deserializes back to a
value structurally equal to the payload. -/
theorem handle_response_roundtrip (payload : Json) :
    parseJson ((handle_response (.ok payload)).body) = some payload :=
  parseJson_pretty payload

/-- C6: with the resolver of `default_test_resolver` whose pattern is
`^1-(.*)$` and substitution `$1`, resolving identifier `1-abc` yields the
resolved path `abc`. -/
theorem default_resolver_substitution :
    resolve (default_test_resolver "127.0.0.1:8081" .Http) "1-abc" ⟨.Http⟩ =
      .ok (.Local (LocalStorage.new .Http "127.0.0.1:8081" "data" "/data"), "abc") := by
  decide

/-- C7: the header context adapter is an identity copy — every header
entry appears unchanged and in order, so each name carries the same values
in the same order as the original request, and no value is transformed. -/
theorem header_adapter_identity (request_headers : List (String × String)) :
    headerMapFrom request_headers = request_headers ∧
    ∀ name, headerValues name (headerMapFrom request_headers) =
      headerValues name request_headers := by
  have hfold : ∀ (l acc : List (String × String)), l.foldl headerMapAppend acc = acc ++ l := by
    intro l
    induction l with
    | nil => intro acc; simp
    | cons e t ih => intro acc; simp [List.foldl_cons, headerMapAppend, ih]
  have hid : headerMapFrom request_headers = request_headers := by
    show headerMapFromIter request_headers = request_headers
    rw [headerMapFromIter, hfold]
    simp
  exact ⟨hid, fun name => by rw [hid]⟩

/-- C8: resolver construction fails eagerly at configuration time — for
every specification whose pattern is an invalid regex, or whose
substitution references a capture group the pattern does not define,
`Resolver.new` returns an error (so no such failure reaches request
time). -/
theorem resolver_new_rejects_invalid (storage : Storage) (pattern substitution : String)
    (guard : AllowGuard)
    (hbad : parseRegex pattern = none ∨
      ∃ r g, parseRegex pattern = some (r, g) ∧ g < maxGroupRef (parseTemplate substitution)) :
    ∃ e, Resolver.new storage pattern substitution guard = .error e := by
  rcases hbad with h | ⟨r, g, hp, hg⟩
  · exact ⟨.invalidPattern, by simp [Resolver.new, h]⟩
  · refine ⟨.invalidGroupReference, ?_⟩
    simp only [Resolver.new, hp]
    rw [if_neg (by omega)]

/-- C8 witness: the unbalanced pattern `^1-(` is rejected at construction
time. -/
theorem resolver_new_rejects_invalid_witness :
    ∃ e, Resolver.new (.Local (LocalStorage.new .Http "127.0.0.1:8081" "data" "/data"))
      "^1-(" "$1" AllowGuard.allowAll = .error e :=
  resolver_new_rejects_invalid _ "^1-(" "$1" AllowGuard.allowAll (Or.inl (by decide))

/-- C9: two-run determinism — `handle_response` applied twice to the same
outcome yields identical responses, and `resolve` applied twice to the
same resolver list, identifier and context yields identical results (both
are pure functions of their inputs). -/
theorem translate_resolve_deterministic (o : Except HtsGetError Json)
    (rs : List Resolver) (id : String) (ctx : RequestContext) :
    handle_response o = handle_response o ∧ resolve rs id ctx = resolve rs id ctx :=
  ⟨rfl, rfl⟩

/-- C10: `Response::is_success` returns true exactly when
`200 ≤ status < 300`; in particular every status of 300 or above (every
3xx redirect included) is classified as not successful. -/
theorem is_success_iff (r : Response) :
    (r.is_success = true ↔ 200 ≤ r.status ∧ r.status < 300) ∧
    (300 ≤ r.status → r.is_success = false) := by
  constructor
  · rw [Response.is_success]
    simp only [Bool.and_eq_true, decide_eq_true_eq, gt_iff_lt, ge_iff_le]
    omega
  · intro h
    rw [Response.is_success]
    simp only [Bool.and_eq_false_iff, decide_eq_false_iff_not, gt_iff_lt, not_lt]
    omega

end Htsget
